import Mathlib

/-!
Verification development for the fantasy scoring pipeline
(`src/fantasy/player_matcher.py`, `src/fantasy/calculator.py`,
`src/fantasy/models.py`).

Strings are modelled as Lean `String`s and manipulated through their
underlying `List Char`.  Python's `float` arithmetic is modelled with `ℚ`
(every constant appearing in the scoring formulas is exactly
representable, and the claims under study are about exact formula
values).  Python's `str.lower`/`str.upper` are modelled with the ASCII
`Char.toLower`/`Char.toUpper`; all inputs relevant to the claims are
ASCII.
-/

/-- Whitespace as recognised by Python's `str.strip()` / `str.split()`
(ASCII fragment): space, tab, newline, carriage return, vertical tab,
form feed. -/
def isPySpace (c : Char) : Bool :=
  c == ' ' || c == '\t' || c == '\n' || c == '\r' || c == '\x0b' || c == '\x0c'

/-- Python `str.strip()`: drop whitespace from both ends. -/
def pyStrip (l : List Char) : List Char :=
  ((l.dropWhile isPySpace).reverse.dropWhile isPySpace).reverse

/-- The suffix tokens of the regex `(Jr\.?|Sr\.?|II|III|IV|V)` matched
case-insensitively and anchored at the end of the string: the remaining
text must be exactly one of these alternatives. -/
def isSuffixToken (l : List Char) : Bool :=
  let w := l.map Char.toLower
  w == "jr".data || w == "jr.".data || w == "sr".data || w == "sr.".data ||
    w == "ii".data || w == "iii".data || w == "iv".data || w == "v".data

/-- `re.sub(r'\s+(Jr\.?|Sr\.?|II|III|IV|V)$', '', name, flags=IGNORECASE)`
from `normalize_name` (player_matcher.py line 24).  The regex matches a
nonempty whitespace run followed by a suffix token that reaches the end
of the string; `re.sub` removes the leftmost such match (at most one
exists since the match is anchored at `$`).  Scanning left to right, at
each whitespace character we test whether the rest of the string after
the maximal whitespace run is exactly a suffix token. -/
def stripSuffixChars : List Char → List Char
  | [] => []
  | c :: cs =>
    if isPySpace c then
      if isSuffixToken (cs.dropWhile isPySpace) then []
      else c :: stripSuffixChars cs
    else c :: stripSuffixChars cs

/-- ASCII uppercase letter (the regex class `[A-Z]`). -/
def isUpperAZ (c : Char) : Bool := 'A' ≤ c && c ≤ 'Z'

/-- `re.sub(r'\.([A-Z])', r' \1', name)` (player_matcher.py line 27):
every period immediately followed by an ASCII capital becomes a space,
keeping the capital; matches are non-overlapping, scanning left to
right. -/
def periodCapital : List Char → List Char
  | [] => []
  | '.' :: c :: cs =>
    if isUpperAZ c then ' ' :: c :: periodCapital cs
    else '.' :: periodCapital (c :: cs)
  | c :: cs => c :: periodCapital cs

/-- `re.sub(r'\.', ' ', name)` (player_matcher.py line 28): every
remaining period becomes a space. -/
def periodAll (l : List Char) : List Char :=
  l.map (fun c => if c == '.' then ' ' else c)

/-- `normalize_name` (player_matcher.py lines 9-30) on the character
list: strip, remove one trailing generational suffix, expand
period-capital pairs, replace remaining periods with spaces, lowercase,
strip again. -/
def normalizeChars (l : List Char) : List Char :=
  pyStrip ((periodAll (periodCapital (stripSuffixChars (pyStrip l)))).map Char.toLower)

/-- `normalize_name` on Lean strings. -/
def normalize_name (s : String) : String :=
  String.mk (normalizeChars s.data)

example : normalize_name "Patrick Mahomes" = "patrick mahomes" := by decide
example : normalize_name "  Aaron Jones  " = "aaron jones" := by decide
example : normalize_name "Patrick Mahomes Jr." = "patrick mahomes" := by decide
example : normalize_name "Patrick Mahomes Jr" = "patrick mahomes" := by decide
example : normalize_name "Tom Brady Sr." = "tom brady" := by decide
example : normalize_name "John Smith II" = "john smith" := by decide
example : normalize_name "John Smith III" = "john smith" := by decide
example : normalize_name "John Smith IV" = "john smith" := by decide
example : normalize_name "PATRICK MAHOMES" = "patrick mahomes" := by decide
example : normalize_name "J.Love" = "j love" := by decide
example : normalize_name "Smith.II" = "smith ii" := by decide
example : normalize_name "smith ii" = "smith" := by decide
example : normalize_name "." = "" := by decide

/-- `a` is a prefix-style match of `b`: character-by-character. -/
def isPfx : List Char → List Char → Bool
  | [], _ => true
  | _ :: _, [] => false
  | c :: cs, d :: ds => c == d && isPfx cs ds

/-- Python's substring test `a in b`: `a` occurs contiguously in `b`.
The empty string occurs in every string. -/
def isSubstr (a : List Char) : List Char → Bool
  | [] => a.isEmpty
  | d :: ds => isPfx a (d :: ds) || isSubstr a ds

/-- Python `str.split()` (no argument): split on whitespace runs,
discarding empty pieces.  The accumulator holds the current word
reversed. -/
def pyWordsAux : List Char → List Char → List (List Char)
  | [], acc => if acc.isEmpty then [] else [acc.reverse]
  | c :: cs, acc =>
    if isPySpace c then
      if acc.isEmpty then pyWordsAux cs [] else acc.reverse :: pyWordsAux cs []
    else pyWordsAux cs (c :: acc)

def pyWords (l : List Char) : List (List Char) := pyWordsAux l []

/-- Python `word.strip(".")`: drop periods from both ends. -/
def stripDots (l : List Char) : List Char :=
  ((l.dropWhile (fun c => c == '.')).reverse.dropWhile (fun c => c == '.')).reverse

/-- `is_initial` (player_matcher.py lines 71-75): after stripping
periods the word is a single non-digit character. -/
def isInitial (w : List Char) : Bool :=
  match stripDots w with
  | [c] => !('0' ≤ c && c ≤ '9')
  | _ => false

/-- `set(a).issubset(set(b))` on word lists. -/
def subsetW (a b : List (List Char)) : Bool :=
  a.all (fun w => b.contains w)

/-- `a[-1] == b[-1]` on word lists (the guards in the source ensure both
lists are nonempty when this is consulted). -/
def lastEq (a b : List (List Char)) : Bool :=
  match a.getLast?, b.getLast? with
  | some x, some y => x == y
  | _, _ => false

/-- Python set equality `{cf, cl} == {af, al}` on two-element set
literals (duplicates collapse). -/
def pairSetEq (cf cl af al : List Char) : Bool :=
  ((cf == af || cf == al) && (cl == af || cl == al)) &&
    ((af == cf || af == cl) && (al == cf || al == cl))

/-- The fourth rule of `fuzzy_match_name` (player_matcher.py lines
96-113), on the "meaningful" word lists: if the last meaningful words
agree, match when either list has exactly one word, or when both have at
least two and their {first, last} sets coincide. -/
def rule4check (cm am : List (List Char)) : Bool :=
  match cm.getLast?, am.getLast? with
  | some cl, some al =>
    if cl == al then
      if cm.length == 1 || am.length == 1 then true
      else if 2 ≤ cm.length && 2 ≤ am.length then
        match cm.head?, am.head? with
        | some cf, some af => pairSetEq cf cl af al
        | _, _ => false
      else false
    else false
  | _, _ => false

/-- The non-initial ("meaningful") words of a name after normalization:
`csv_non_initials` / `api_non_initials` of player_matcher.py lines
77-78. -/
def nonInitialsOf (s : String) : List (List Char) :=
  (pyWords (normalizeChars s.data)).filter (fun w => !(isInitial w))

/-- `csv_meaningful` / `api_meaningful` of player_matcher.py lines
98-99: the non-initial words if any, else all words. -/
def meaningfulOf (s : String) : List (List Char) :=
  if (nonInitialsOf s).isEmpty then pyWords (normalizeChars s.data)
  else nonInitialsOf s

/-- `fuzzy_match_name` (player_matcher.py lines 33-115).  The `threshold`
parameter of the source is unused there and omitted here.  Decision
order: exact normalized equality; containment either way; otherwise
tokenize, fail when either token list is empty, and combine the
token-subset / shared-last-name rule over non-initial tokens with the
last-token fallback over the "meaningful" tokens. -/
def fuzzy_match_name (csv_name api_name : String) : Bool :=
  if normalizeChars csv_name.data == normalizeChars api_name.data then true
  else if isSubstr (normalizeChars csv_name.data) (normalizeChars api_name.data) ||
      isSubstr (normalizeChars api_name.data) (normalizeChars csv_name.data) then true
  else if (pyWords (normalizeChars csv_name.data)).isEmpty ||
      (pyWords (normalizeChars api_name.data)).isEmpty then false
  else
    (!(nonInitialsOf csv_name).isEmpty && !(nonInitialsOf api_name).isEmpty &&
      (subsetW (nonInitialsOf csv_name) (nonInitialsOf api_name) ||
        subsetW (nonInitialsOf api_name) (nonInitialsOf csv_name) ||
        lastEq (nonInitialsOf csv_name) (nonInitialsOf api_name))) ||
    (!(meaningfulOf csv_name).isEmpty && !(meaningfulOf api_name).isEmpty &&
      rule4check (meaningfulOf csv_name) (meaningfulOf api_name))

example : fuzzy_match_name "Patrick Mahomes" "Patrick Mahomes" = true := by decide
example : fuzzy_match_name "Patrick Mahomes" "patrick mahomes" = true := by decide
example : fuzzy_match_name "Patrick Mahomes" "Patrick Mahomes Jr." = true := by decide
example : fuzzy_match_name "Patrick" "Patrick Mahomes" = true := by decide
example : fuzzy_match_name "Patrick Mahomes" "Patrick" = true := by decide
example : fuzzy_match_name "P. Mahomes" "Patrick Mahomes" = true := by decide
example : fuzzy_match_name "Patrick Mahomes" "Patrick M. Mahomes" = true := by decide
example : fuzzy_match_name "Mahomes Patrick" "Patrick Mahomes" = true := by decide
example : fuzzy_match_name "Patrick Mahomes" "Josh Allen" = false := by decide
example : fuzzy_match_name "Tom Brady" "Aaron Rodgers" = false := by decide
example : fuzzy_match_name "Jordan Love" "J.Love" = true := by decide

/-- One row of the nflreadpy player-stats DataFrame, restricted to the
columns `find_player_match` consults.  `recent_team` / `team` hold the
row's value in those columns; whether the columns exist at all is a
property of the whole DataFrame, recorded in `StatsDF`. -/
structure StatRow where
  player_name : String
  position : String
  recent_team : String
  team : String
deriving DecidableEq, Repr

/-- The player-stats DataFrame: its rows in order, plus which of the two
team columns are present. -/
structure StatsDF where
  hasRecentTeam : Bool
  hasTeam : Bool
  rows : List StatRow
deriving DecidableEq, Repr

/-- `s.upper().strip()` as applied to positions and team codes in
`find_player_match` (player_matcher.py lines 139-140, 147, 157). -/
def upperStrip (s : String) : String :=
  String.mk (pyStrip (s.data.map Char.toUpper))

/-- The value of the team column chosen by `find_player_match` line 154:
`recent_team` when that column exists, else `team`. -/
def teamValue (df : StatsDF) (r : StatRow) : String :=
  if df.hasRecentTeam then r.recent_team else r.team

/-- `find_player_match` (player_matcher.py lines 118-181).  Filter rows
by upper/stripped position; if none remain return `none`; when a team
column exists, scan the exact-team subset in order for the first fuzzy
name match, then (unless `strict_team_match`) the whole position subset;
without a team column, scan the position subset directly. -/
def find_player_match (csv_player_name csv_player_position csv_player_team : String)
    (df : StatsDF) (strict_team_match : Bool) : Option StatRow :=
  let csv_position := upperStrip csv_player_position
  let csv_team := upperStrip csv_player_team
  let position_matches := df.rows.filter (fun r => upperStrip r.position == csv_position)
  if position_matches.isEmpty then none
  else if df.hasRecentTeam || df.hasTeam then
    let exact_team_matches :=
      position_matches.filter (fun r => upperStrip (teamValue df r) == csv_team)
    match exact_team_matches.find? (fun r => fuzzy_match_name csv_player_name r.player_name) with
    | some row => some row
    | none =>
      if !strict_team_match then
        position_matches.find? (fun r => fuzzy_match_name csv_player_name r.player_name)
      else none
  else
    position_matches.find? (fun r => fuzzy_match_name csv_player_name r.player_name)

/-- `r` is the first element of `l` satisfying `p`, phrased by index:
`r` sits at some index `i`, satisfies `p`, and every earlier element
fails `p`. -/
def FirstMatch {α : Type} (p : α → Bool) (l : List α) (r : α) : Prop :=
  ∃ i : Nat, l[i]? = some r ∧ p r = true ∧
    ∀ j, j < i → ∀ x, l[j]? = some x → p x = false

/-- `PlayerScore` (models.py lines 65-108), fields only; the
construction-time validation lives in `mkPlayerScore`. -/
structure PlayerScore where
  player_name : String
  player_team : String
  player_position : String
  week : Int
  season : Int
  fantasy_points : ℚ
deriving DecidableEq, Repr

/-- `PlayerScore.__post_init__` (models.py lines 98-108): construction
raises `ValueError` when `fantasy_points < 0`, modelled as `none`. -/
def mkPlayerScore (player_name player_team player_position : String)
    (week season : Int) (fantasy_points : ℚ) : Option PlayerScore :=
  if fantasy_points < 0 then none
  else some ⟨player_name, player_team, player_position, week, season, fantasy_points⟩

/-- `TeamScore` (models.py lines 111-155), fields only. -/
structure TeamScore where
  fantasy_team : String
  week : Int
  season : Int
  total_points : ℚ
  player_scores : List PlayerScore
deriving DecidableEq, Repr

/-- `TeamScore.__post_init__` (models.py lines 141-155): construction
raises `ValueError` when `|total_points - Σ fantasy_points| > 0.01`,
modelled as `none`. -/
def mkTeamScore (fantasy_team : String) (week season : Int)
    (total_points : ℚ) (player_scores : List PlayerScore) : Option TeamScore :=
  let calculated_total := (player_scores.map (fun ps => ps.fantasy_points)).sum
  if |total_points - calculated_total| > 1/100 then none
  else some ⟨fantasy_team, week, season, total_points, player_scores⟩

/-- The numeric stat fields of one stats row as consulted by
`calculate_player_fantasy_points`; `none` models an absent field.  The
source reads each field as `float(row.get(f, 0) or 0)`, so both an
absent field and a `None`/falsy value count as zero. -/
structure StatLine where
  passing_yards : Option ℚ := none
  passing_tds : Option ℚ := none
  interceptions : Option ℚ := none
  rushing_yards : Option ℚ := none
  rushing_tds : Option ℚ := none
  receiving_yards : Option ℚ := none
  receiving_tds : Option ℚ := none
  receptions : Option ℚ := none
deriving DecidableEq, Repr

/-- `float(player_row.get(field, 0) or 0)`: absent fields default to
zero. -/
def getStat (o : Option ℚ) : ℚ := o.getD 0

/-- `calculate_player_fantasy_points` (calculator.py lines 155-210),
accumulating `points` in the source's order.  Upper-cased position "QB"
uses the passing formula plus rushing; every other position uses
rushing, receiving and half-PPR receptions. -/
def calculate_player_fantasy_points (player_row : StatLine) (position : String) : ℚ :=
  let positionU := String.mk (position.data.map Char.toUpper)
  if positionU == "QB" then
    let points := (0 : ℚ) + getStat player_row.passing_yards / 25
    let points := points + getStat player_row.passing_tds * 4
    let points := points - getStat player_row.interceptions * 2
    let points := points + getStat player_row.rushing_yards / 10
    let points := points + getStat player_row.rushing_tds * 6
    points
  else
    let points := (0 : ℚ) + getStat player_row.rushing_yards / 10
    let points := points + getStat player_row.rushing_tds * 6
    let points := points + getStat player_row.receiving_yards / 10
    let points := points + getStat player_row.receiving_tds * 6
    let points := points + getStat player_row.receptions * (1/2)
    points

example :
    calculate_player_fantasy_points
      { passing_yards := some 300, passing_tds := some 3, interceptions := some 1,
        rushing_yards := some 0, rushing_tds := some 0 } "QB" = 22 := by
  rw [calculate_player_fantasy_points, if_pos (by decide)]
  norm_num [getStat]
example :
    calculate_player_fantasy_points
      { rushing_yards := some 100, rushing_tds := some 1, receiving_yards := some 50,
        receiving_tds := some 0, receptions := some 5 } "RB" = 23.5 := by
  rw [calculate_player_fantasy_points, if_neg (by decide)]
  norm_num [getStat]
example :
    calculate_player_fantasy_points
      { passing_yards := some 200, passing_tds := some 2, rushing_yards := some 50,
        rushing_tds := some 1 } "QB" = 27 := by
  rw [calculate_player_fantasy_points, if_pos (by decide)]
  norm_num [getStat]
example :
    calculate_player_fantasy_points
      { receiving_yards := some 80, receiving_tds := some 1, receptions := some 8 }
      "TE" = 18 := by
  rw [calculate_player_fantasy_points, if_neg (by decide)]
  norm_num [getStat]

/-- Modelled from the spec: `select_optimal_lineup` is imported by the
repository's tests from `fantasy.calculator` but is absent from the
source snapshot, so its ordering relation is taken from spec section
4.5: players compare by points descending.  `pointsGE a b` holds when
`a` may precede `b`. -/
def pointsGE (a b : PlayerScore) : Prop :=
  b.fantasy_points ≤ a.fantasy_points

instance : DecidableRel pointsGE :=
  fun a b => inferInstanceAs (Decidable (b.fantasy_points ≤ a.fantasy_points))

instance : IsTotal PlayerScore pointsGE :=
  ⟨fun a b => le_total b.fantasy_points a.fantasy_points⟩

instance : IsTrans PlayerScore pointsGE :=
  ⟨fun _ _ _ hab hbc => le_trans hbc hab⟩

/-- Modelled from the spec: the default slot table of spec section 4.5,
`{QB:1, RB:1, WR:2, TE:1}`, carried as an ordered association list so
that it also records the default `slotOrder = [QB, RB, WR, TE]`. -/
def defaultSlots : List (String × Nat) :=
  [("QB", 1), ("RB", 1), ("WR", 2), ("TE", 1)]

/-- Modelled from the spec: `select_optimal_lineup` (spec section 4.5;
imported by tests from `fantasy.calculator` but missing from the source
snapshot).  Group the scored players by position, stable-sort each group
by points descending (insertion sort preserves the original input order
on ties), take the first `count` of each group, and concatenate the
groups in slot order.  Positions absent from `slots` are dropped. -/
def select_optimal_lineup (scored : List PlayerScore)
    (slots : List (String × Nat) := defaultSlots) : List PlayerScore :=
  (slots.map (fun sc =>
    (List.insertionSort pointsGE
      (scored.filter (fun p => p.player_position == sc.1))).take sc.2)).flatten

/-- Python `round(x, 2)` modelled as rounding `100 x` to the nearest
integer (the claims only evaluate it where `100 x` is an integer, so the
tie-breaking convention is immaterial). -/
def round2 (x : ℚ) : ℚ := ((round (x * 100) : ℤ) : ℚ) / 100

/-- Modelled from the spec: the Team Aggregator's total (spec section
4.6) — sum the selected lineup's points and round to 2 decimals.
Unselected players contribute nothing. -/
def team_total (scored : List PlayerScore) : ℚ :=
  round2 (((select_optimal_lineup scored).map (fun p => p.fantasy_points)).sum)

theorem find?_eq_some_iff_firstMatch {α : Type} (p : α → Bool) (l : List α) (r : α) :
    l.find? p = some r ↔ FirstMatch p l r := by
  induction l with
  | nil => simp [FirstMatch]
  | cons a as ih =>
    by_cases ha : p a = true
    · rw [List.find?_cons_of_pos as ha]
      constructor
      · intro h
        obtain rfl : a = r := by injection h
        exact ⟨0, by simp, ha, fun j hj x hx => absurd hj (Nat.not_lt_zero j)⟩
      · rintro ⟨i, hi, hp, hmin⟩
        cases i with
        | zero => simpa using hi
        | succ k =>
          have h0 := hmin 0 (Nat.succ_pos k) a (by simp)
          rw [ha] at h0
          cases h0
    · rw [List.find?_cons_of_neg as ha]
      rw [ih]
      constructor
      · rintro ⟨i, hi, hp, hmin⟩
        refine ⟨i + 1, by simpa using hi, hp, ?_⟩
        intro j hj x hx
        cases j with
        | zero =>
          have hxa : a = x := by simpa using hx
          subst hxa
          simpa using ha
        | succ k => exact hmin k (by omega) x (by simpa using hx)
      · rintro ⟨i, hi, hp, hmin⟩
        cases i with
        | zero =>
          have : a = r := by simpa using hi
          subst this
          exact absurd hp ha
        | succ k =>
          exact ⟨k, by simpa using hi, hp,
            fun j hj x hx => hmin (j + 1) (by omega) x (by simpa using hx)⟩

theorem firstMatch_nil_elim {α : Type} {p : α → Bool} {r : α} (h : FirstMatch p [] r) : False := by
  obtain ⟨i, hi, -, -⟩ := h
  simp at hi

/-- Claim C4: if no candidate's upper-cased, trimmed position equals the
entry's upper-cased, trimmed position, `find_player_match` returns
`none` regardless of names, teams or the strict flag. -/
theorem resolver_requires_position (n p t : String) (df : StatsDF) (strict : Bool)
    (h : ∀ r ∈ df.rows, upperStrip r.position ≠ upperStrip p) :
    find_player_match n p t df strict = none := by
  have hf : df.rows.filter (fun x => upperStrip x.position == upperStrip p) = [] :=
    List.filter_eq_nil_iff.mpr (fun x hx => by simpa using h x hx)
  simp [find_player_match, hf]

/-- A pool holding only QB records. -/
def qbPool : StatsDF :=
  ⟨true, true, [⟨"Patrick Mahomes", "QB", "KC", "KC"⟩, ⟨"Josh Allen", "QB", "BUF", "BUF"⟩]⟩

theorem resolver_requires_position_witness :
    find_player_match "Patrick Mahomes" "WR" "KC" qbPool false = none :=
  resolver_requires_position "Patrick Mahomes" "WR" "KC" qbPool false (by decide)

/-- Claim C10: when the pool has neither a `recent_team` nor a `team`
column, `find_player_match` ignores `strict_team_match`: for either flag
value it returns the first fuzzy name match (in original order) among
the position-filtered candidates. -/
theorem resolver_ignores_strict_without_team_columns (n p t : String) (df : StatsDF)
    (hr : df.hasRecentTeam = false) (ht : df.hasTeam = false) (strict : Bool) :
    find_player_match n p t df strict =
      (df.rows.filter (fun x => upperStrip x.position == upperStrip p)).find?
        (fun x => fuzzy_match_name n x.player_name) ∧
    ∀ r : StatRow,
      (find_player_match n p t df strict = some r ↔
        FirstMatch (fun x => fuzzy_match_name n x.player_name)
          (df.rows.filter (fun x => upperStrip x.position == upperStrip p)) r) := by
  have key : find_player_match n p t df strict =
      (df.rows.filter (fun x => upperStrip x.position == upperStrip p)).find?
        (fun x => fuzzy_match_name n x.player_name) := by
    unfold find_player_match
    rw [hr, ht]
    by_cases hpm :
        (df.rows.filter (fun x => upperStrip x.position == upperStrip p)).isEmpty
    · have hnil := List.isEmpty_iff.mp hpm
      simp [hpm, hnil]
    · simp [hpm]
  refine ⟨key, fun r => ?_⟩
  rw [key]
  exact find?_eq_some_iff_firstMatch _ _ r

/-- A pool with no team columns at all. -/
def noTeamPool : StatsDF := ⟨false, false, [⟨"Patrick Mahomes", "QB", "", ""⟩]⟩

theorem resolver_ignores_strict_without_team_columns_witness :
    find_player_match "Patrick Mahomes" "QB" "KC" noTeamPool true =
      some ⟨"Patrick Mahomes", "QB", "", ""⟩ := by
  rw [(resolver_ignores_strict_without_team_columns "Patrick Mahomes" "QB" "KC" noTeamPool
    rfl rfl true).1]
  decide

/-- Claim C3: with a team column present, `find_player_match` returns
`some r` exactly when `r` is the first fuzzy name match (in original
candidate order) among the exact-team, position-filtered candidates, or
when no exact-team candidate fuzzy-matches, `strict_team_match` is
false, and `r` is the first fuzzy name match among all position-filtered
candidates. -/
theorem resolver_tiered_first_match (n p t : String) (df : StatsDF) (strict : Bool)
    (r : StatRow) (hcol : (df.hasRecentTeam || df.hasTeam) = true) :
    find_player_match n p t df strict = some r ↔
      (FirstMatch (fun x => fuzzy_match_name n x.player_name)
          ((df.rows.filter (fun x => upperStrip x.position == upperStrip p)).filter
            (fun x => upperStrip (teamValue df x) == upperStrip t)) r ∨
        ((∀ x ∈ (df.rows.filter (fun x => upperStrip x.position == upperStrip p)).filter
              (fun x => upperStrip (teamValue df x) == upperStrip t),
            fuzzy_match_name n x.player_name = false) ∧
          strict = false ∧
          FirstMatch (fun x => fuzzy_match_name n x.player_name)
            (df.rows.filter (fun x => upperStrip x.position == upperStrip p)) r)) := by
  unfold find_player_match
  rw [hcol]
  by_cases hpm : (df.rows.filter (fun x => upperStrip x.position == upperStrip p)).isEmpty
  · have hnil := List.isEmpty_iff.mp hpm
    rw [hnil]
    simp only [hpm, if_true, List.filter_nil]
    constructor
    · intro h
      cases h
    · rintro (h | ⟨-, -, h⟩) <;> exact absurd h firstMatch_nil_elim
  · simp only [hpm, Bool.false_eq_true, if_false]
    cases hfind : ((df.rows.filter (fun x => upperStrip x.position == upperStrip p)).filter
        (fun x => upperStrip (teamValue df x) == upperStrip t)).find?
        (fun x => fuzzy_match_name n x.player_name) with
    | some row =>
      simp only [hfind]
      have hrow := (find?_eq_some_iff_firstMatch _ _ row).mp hfind
      constructor
      · intro h
        obtain rfl : row = r := by injection h
        exact Or.inl hrow
      · rintro (h | ⟨hall, -, -⟩)
        · have : _ = some r := (find?_eq_some_iff_firstMatch _ _ r).mpr h
          rw [hfind] at this
          exact this
        · have hmem := List.mem_of_find?_eq_some hfind
          have hfz := List.find?_some hfind
          rw [hall row hmem] at hfz
          cases hfz
    | none =>
      have hall := List.find?_eq_none.mp hfind
      simp only [hfind]
      cases strict with
      | true =>
        simp only [Bool.not_true, Bool.false_eq_true, if_false]
        constructor
        · intro h
          cases h
        · rintro (h | ⟨-, hstrict, -⟩)
          · rw [(find?_eq_some_iff_firstMatch _ _ r).mpr h] at hfind
            cases hfind
          · cases hstrict
      | false =>
        simp only [Bool.not_false, if_true]
        rw [find?_eq_some_iff_firstMatch]
        constructor
        · intro h
          refine Or.inr ⟨fun x hx => ?_, by trivial, h⟩
          simpa using hall x hx
        · rintro (h | ⟨-, -, h⟩)
          · rw [(find?_eq_some_iff_firstMatch _ _ r).mpr h] at hfind
            cases hfind
          · exact h

/-- A pool where two KC quarterbacks both fuzzy-match the same entry. -/
def kcPool : StatsDF :=
  ⟨true, true,
    [⟨"Patrick Mahomes", "QB", "KC", "KC"⟩, ⟨"Patrick Mahomes II", "QB", "KC", "KC"⟩]⟩

theorem resolver_tiered_first_match_witness :
    find_player_match "Patrick Mahomes" "QB" "KC" kcPool false =
      some ⟨"Patrick Mahomes", "QB", "KC", "KC"⟩ :=
  (resolver_tiered_first_match "Patrick Mahomes" "QB" "KC" kcPool false
    ⟨"Patrick Mahomes", "QB", "KC", "KC"⟩ rfl).mpr
    (Or.inl ⟨0, by decide, by decide, fun j hj x hx => absurd hj (Nat.not_lt_zero j)⟩)

/-- Claim C8: a `PlayerScore` never carries negative points —
construction fails exactly when `fantasy_points < 0`, and succeeds with
the given fields otherwise. -/
theorem playerScore_nonneg (n t p : String) (w s : Int) (pts : ℚ) :
    (mkPlayerScore n t p w s pts = none ↔ pts < 0) ∧
    (0 ≤ pts → mkPlayerScore n t p w s pts = some ⟨n, t, p, w, s, pts⟩) := by
  constructor
  · by_cases h : pts < 0 <;> simp [mkPlayerScore, h]
  · intro h
    rw [mkPlayerScore, if_neg (not_lt.mpr h)]

theorem playerScore_nonneg_witness :
    calculate_player_fantasy_points { interceptions := some 5 } "QB" = -10 ∧
    mkPlayerScore "Bad QB" "KC" "QB" 5 2023
      (calculate_player_fantasy_points { interceptions := some 5 } "QB") = none ∧
    mkPlayerScore "Patrick Mahomes" "KC" "QB" 5 2023 22 =
      some ⟨"Patrick Mahomes", "KC", "QB", 5, 2023, 22⟩ := by
  have hv : calculate_player_fantasy_points { interceptions := some 5 } "QB" = -10 := by
    rw [calculate_player_fantasy_points, if_pos (by decide)]
    norm_num [getStat]
  refine ⟨hv, ?_, ?_⟩
  · rw [hv]
    exact (playerScore_nonneg "Bad QB" "KC" "QB" 5 2023 (-10)).1.mpr (by norm_num)
  · exact (playerScore_nonneg "Patrick Mahomes" "KC" "QB" 5 2023 22).2 (by norm_num)

/-- Claim C6: constructing a `TeamScore` fails exactly when the declared
total deviates from the summed lineup by more than the absolute
tolerance `0.01`; a deviation of at most `0.01` constructs
successfully. -/
theorem teamScore_total_tolerance (ft : String) (w s : Int) (total : ℚ)
    (pss : List PlayerScore) :
    (|total - (pss.map (fun ps => ps.fantasy_points)).sum| > 1/100 →
      mkTeamScore ft w s total pss = none) ∧
    (|total - (pss.map (fun ps => ps.fantasy_points)).sum| ≤ 1/100 →
      mkTeamScore ft w s total pss = some ⟨ft, w, s, total, pss⟩) := by
  constructor
  · intro h
    simp only [mkTeamScore]
    rw [if_pos h]
  · intro h
    simp only [mkTeamScore]
    rw [if_neg (not_lt.mpr h)]

/-- Two player scores summing to 35.5, used to exercise the tolerance. -/
def tolPlayers : List PlayerScore :=
  [⟨"Player 1", "KC", "QB", 5, 2023, 20⟩, ⟨"Player 2", "GB", "RB", 5, 2023, 15.5⟩]

theorem teamScore_total_tolerance_witness :
    mkTeamScore "Team A" 5 2023 50 tolPlayers = none ∧
    mkTeamScore "Team A" 5 2023 35.505 tolPlayers =
      some ⟨"Team A", 5, 2023, 35.505, tolPlayers⟩ :=
  ⟨(teamScore_total_tolerance "Team A" 5 2023 50 tolPlayers).1
      (by norm_num [tolPlayers, abs_sub_lt_iff, lt_abs]),
   (teamScore_total_tolerance "Team A" 5 2023 35.505 tolPlayers).2
      (by norm_num [tolPlayers, abs_le])⟩

/-- Claim C5: the score calculator is total (absent fields read as zero,
no failure path) and computes the QB formula under upper-cased "QB"
dispatch and the rushing/receiving half-PPR formula for every other
position; the spec's two worked examples evaluate to 22 and 23.5. -/
theorem calculator_formulas :
    (∀ (row : StatLine) (pos : String),
        String.mk (pos.data.map Char.toUpper) = "QB" →
        calculate_player_fantasy_points row pos =
          getStat row.passing_yards / 25 + getStat row.passing_tds * 4 -
            getStat row.interceptions * 2 + getStat row.rushing_yards / 10 +
            getStat row.rushing_tds * 6) ∧
    (∀ (row : StatLine) (pos : String),
        String.mk (pos.data.map Char.toUpper) ≠ "QB" →
        calculate_player_fantasy_points row pos =
          getStat row.rushing_yards / 10 + getStat row.rushing_tds * 6 +
            getStat row.receiving_yards / 10 + getStat row.receiving_tds * 6 +
            getStat row.receptions * (1/2)) ∧
    (∀ pos : String, calculate_player_fantasy_points {} pos = 0) ∧
    calculate_player_fantasy_points
      { passing_yards := some 300, passing_tds := some 3, interceptions := some 1,
        rushing_yards := some 0, rushing_tds := some 0 } "QB" = 22 ∧
    calculate_player_fantasy_points
      { rushing_yards := some 100, rushing_tds := some 1, receiving_yards := some 50,
        receiving_tds := some 0, receptions := some 5 } "RB" = 23.5 := by
  refine ⟨?_, ?_, ?_, ?_, ?_⟩
  · intro row pos h
    rw [calculate_player_fantasy_points, if_pos (beq_iff_eq.mpr h)]
    ring
  · intro row pos h
    rw [calculate_player_fantasy_points, if_neg (by simpa using h)]
    ring
  · intro pos
    rw [calculate_player_fantasy_points]
    split <;> norm_num [getStat]
  · rw [calculate_player_fantasy_points, if_pos (by decide)]
    norm_num [getStat]
  · rw [calculate_player_fantasy_points, if_neg (by decide)]
    norm_num [getStat]

theorem calculator_formulas_witness :
    calculate_player_fantasy_points { passing_yards := some 250 } "qb" = 10 := by
  rw [calculator_formulas.1 { passing_yards := some 250 } "qb" (by decide)]
  norm_num [getStat]

theorem isSubstr_nil_left (l : List Char) : isSubstr [] l = true := by
  cases l <;> simp [isSubstr, isPfx]

/-- Claim C9: whenever one argument normalizes to the empty string, the
fuzzy matcher accepts every other argument, because the containment rule
treats the empty string as a substring of every string. -/
theorem fuzzy_match_empty_normalized (a b : String) (h : normalize_name a = "") :
    fuzzy_match_name a b = true := by
  have hn : normalizeChars a.data = [] := by
    have hd := congrArg String.data h
    simpa [normalize_name] using hd
  by_cases hb : normalizeChars b.data = []
  · simp [fuzzy_match_name, hn, hb]
  · have hne : (([] : List Char) == normalizeChars b.data) = false := by
      rw [beq_eq_false_iff_ne]
      exact fun hh => hb hh.symm
    simp [fuzzy_match_name, hn, hne, isSubstr_nil_left]

theorem fuzzy_match_empty_normalized_witness :
    fuzzy_match_name "." "Tom Brady" = true :=
  fuzzy_match_empty_normalized "." "Tom Brady" (by decide)

/-- Rule 1 of the fuzzy matcher: exact equality of normalized forms. -/
def fuzzyRule1 (a b : String) : Prop :=
  normalizeChars a.data = normalizeChars b.data

/-- Rule 2: containment of one normalized form in the other. -/
def fuzzyRule2 (a b : String) : Prop :=
  isSubstr (normalizeChars a.data) (normalizeChars b.data) = true ∨
  isSubstr (normalizeChars b.data) (normalizeChars a.data) = true

/-- Rule 3: both non-initial token lists are nonempty and one set is a
subset of the other, or their last tokens agree. -/
def fuzzyRule3 (a b : String) : Prop :=
  nonInitialsOf a ≠ [] ∧ nonInitialsOf b ≠ [] ∧
    (subsetW (nonInitialsOf a) (nonInitialsOf b) = true ∨
      subsetW (nonInitialsOf b) (nonInitialsOf a) = true ∨
      lastEq (nonInitialsOf a) (nonInitialsOf b) = true)

/-- `pairSetEq` lifted to the optional first/last tokens. -/
def pairSetEqO : Option (List Char) → Option (List Char) →
    Option (List Char) → Option (List Char) → Bool
  | some cf, some cl, some af, some al => pairSetEq cf cl af al
  | _, _, _, _ => false

/-- The equal-sets case of rule 4: both meaningful token lists have at
least two tokens, their last tokens agree, and their {first, last} sets
coincide. -/
def fuzzyRule4eq (a b : String) : Prop :=
  2 ≤ (meaningfulOf a).length ∧ 2 ≤ (meaningfulOf b).length ∧
    lastEq (meaningfulOf a) (meaningfulOf b) = true ∧
    pairSetEqO (meaningfulOf a).head? (meaningfulOf a).getLast?
      (meaningfulOf b).head? (meaningfulOf b).getLast? = true

theorem isEmpty_false_of_ne_nil {α : Type} {l : List α} (h : l ≠ []) :
    l.isEmpty = false := by
  cases l with
  | nil => exact absurd rfl h
  | cons x xs => rfl

theorem lastEq_spec {x y : List (List Char)} (h : lastEq x y = true) :
    ∃ u v, x.getLast? = some u ∧ y.getLast? = some v ∧ (u == v) = true := by
  unfold lastEq at h
  cases hx : x.getLast? with
  | none => rw [hx] at h; cases h
  | some u =>
    cases hy : y.getLast? with
    | none => rw [hx, hy] at h; cases h
    | some v =>
      rw [hx, hy] at h
      exact ⟨u, v, rfl, rfl, h⟩

theorem lastEq_symm (x y : List (List Char)) (h : lastEq x y = true) :
    lastEq y x = true := by
  obtain ⟨u, v, hx, hy, huv⟩ := lastEq_spec h
  unfold lastEq
  rw [hx, hy]
  rw [beq_iff_eq] at huv ⊢
  exact huv.symm

theorem pairSetEq_symm (cf cl af al : List Char) :
    pairSetEq af al cf cl = pairSetEq cf cl af al := by
  unfold pairSetEq
  rw [Bool.and_comm]

theorem pairSetEqO_symm {p q r s : Option (List Char)}
    (h : pairSetEqO p q r s = true) : pairSetEqO r s p q = true := by
  cases p <;> cases q <;> cases r <;> cases s <;>
    first
      | exact Bool.noConfusion h
      | exact (pairSetEq_symm _ _ _ _).trans h

theorem nonInitialsOf_words_ne_nil {s : String} (h : nonInitialsOf s ≠ []) :
    pyWords (normalizeChars s.data) ≠ [] := by
  intro hnil
  apply h
  unfold nonInitialsOf
  rw [hnil]
  rfl

theorem meaningful_words_ne_nil {s : String} (h : meaningfulOf s ≠ []) :
    pyWords (normalizeChars s.data) ≠ [] := by
  intro hnil
  apply h
  unfold meaningfulOf nonInitialsOf
  rw [hnil]
  rfl

theorem rule4check_true_of (cm am : List (List Char)) (h2c : 2 ≤ cm.length)
    (h2a : 2 ≤ am.length) (hlast : lastEq cm am = true)
    (hpair : pairSetEqO cm.head? cm.getLast? am.head? am.getLast? = true) :
    rule4check cm am = true := by
  obtain ⟨u, v, hx, hy, huv⟩ := lastEq_spec hlast
  obtain ⟨cf, ta, rfl⟩ : ∃ cf ta, cm = cf :: ta := by
    cases cm with
    | nil => simp at h2c
    | cons x xs => exact ⟨x, xs, rfl⟩
  obtain ⟨af, tb, rfl⟩ : ∃ af tb, am = af :: tb := by
    cases am with
    | nil => simp at h2a
    | cons x xs => exact ⟨x, xs, rfl⟩
  have hl1c : ((cf :: ta).length == 1) = false := by
    rw [beq_eq_false_iff_ne]
    intro hlen
    rw [hlen] at h2c
    omega
  have hl1a : ((af :: tb).length == 1) = false := by
    rw [beq_eq_false_iff_ne]
    intro hlen
    rw [hlen] at h2a
    omega
  simp only [List.head?_cons, hx, hy, pairSetEqO] at hpair
  unfold rule4check
  rw [hx, hy]
  simp only [huv, if_true, hl1c, hl1a, Bool.or_self, Bool.false_eq_true, if_false,
    List.head?_cons]
  rw [if_pos (by simp only [Bool.and_eq_true, decide_eq_true_eq]; exact ⟨h2c, h2a⟩)]
  exact hpair

theorem fuzzy_of_rule (a b : String)
    (h : fuzzyRule1 a b ∨ fuzzyRule2 a b ∨ fuzzyRule3 a b ∨ fuzzyRule4eq a b) :
    fuzzy_match_name a b = true := by
  by_cases h1 : (normalizeChars a.data == normalizeChars b.data) = true
  · rw [fuzzy_match_name, if_pos h1]
  by_cases h2 : (isSubstr (normalizeChars a.data) (normalizeChars b.data) ||
      isSubstr (normalizeChars b.data) (normalizeChars a.data)) = true
  · rw [fuzzy_match_name, if_neg h1, if_pos h2]
  rcases h with hr | hr | hr | hr
  · exact absurd (beq_iff_eq.mpr hr) h1
  · refine absurd ?_ h2
    rcases hr with h' | h' <;> simp [h']
  · have haW := nonInitialsOf_words_ne_nil hr.1
    have hbW := nonInitialsOf_words_ne_nil hr.2.1
    rw [fuzzy_match_name, if_neg h1, if_neg h2,
      if_neg (by rw [isEmpty_false_of_ne_nil haW, isEmpty_false_of_ne_nil hbW]; simp)]
    rw [Bool.or_eq_true]
    refine Or.inl ?_
    simp only [Bool.and_eq_true, Bool.not_eq_true']
    refine ⟨⟨isEmpty_false_of_ne_nil hr.1, isEmpty_false_of_ne_nil hr.2.1⟩, ?_⟩
    rcases hr.2.2 with h' | h' | h' <;> simp [h']
  · obtain ⟨ha2, hb2, hlast, hpair⟩ := hr
    have haM : meaningfulOf a ≠ [] := by
      intro hnil
      rw [hnil] at ha2
      simp at ha2
    have hbM : meaningfulOf b ≠ [] := by
      intro hnil
      rw [hnil] at hb2
      simp at hb2
    have haW := meaningful_words_ne_nil haM
    have hbW := meaningful_words_ne_nil hbM
    rw [fuzzy_match_name, if_neg h1, if_neg h2,
      if_neg (by rw [isEmpty_false_of_ne_nil haW, isEmpty_false_of_ne_nil hbW]; simp)]
    rw [Bool.or_eq_true]
    refine Or.inr ?_
    simp only [Bool.and_eq_true, Bool.not_eq_true']
    exact ⟨⟨isEmpty_false_of_ne_nil haM, isEmpty_false_of_ne_nil hbM⟩,
      rule4check_true_of _ _ ha2 hb2 hlast hpair⟩

theorem fuzzy_rule_symm (a b : String)
    (h : fuzzyRule1 a b ∨ fuzzyRule2 a b ∨ fuzzyRule3 a b ∨ fuzzyRule4eq a b) :
    fuzzyRule1 b a ∨ fuzzyRule2 b a ∨ fuzzyRule3 b a ∨ fuzzyRule4eq b a := by
  rcases h with hr | hr | hr | hr
  · exact Or.inl hr.symm
  · exact Or.inr (Or.inl hr.symm)
  · refine Or.inr (Or.inr (Or.inl ⟨hr.2.1, hr.1, ?_⟩))
    rcases hr.2.2 with h' | h' | h'
    · exact Or.inr (Or.inl h')
    · exact Or.inl h'
    · exact Or.inr (Or.inr (lastEq_symm _ _ h'))
  · exact Or.inr (Or.inr (Or.inr
      ⟨hr.2.1, hr.1, lastEq_symm _ _ hr.2.2.1, pairSetEqO_symm hr.2.2.2⟩))

/-- Claim C7: the fuzzy matcher is swap-invariant on every pair decided
by exact equality, containment, the token-subset / last-token rule over
non-initial tokens, or the equal-{first,last}-sets case of the fallback
rule: any of those conditions makes both `matches(a,b)` and
`matches(b,a)` true; in particular "P. Mahomes" and "Patrick Mahomes"
match in both orders. -/
theorem fuzzy_match_symmetry :
    (∀ a b : String,
        fuzzyRule1 a b ∨ fuzzyRule2 a b ∨ fuzzyRule3 a b ∨ fuzzyRule4eq a b →
        fuzzy_match_name a b = true ∧ fuzzy_match_name b a = true) ∧
    fuzzy_match_name "P. Mahomes" "Patrick Mahomes" = true ∧
    fuzzy_match_name "Patrick Mahomes" "P. Mahomes" = true :=
  ⟨fun a b h => ⟨fuzzy_of_rule a b h, fuzzy_of_rule b a (fuzzy_rule_symm a b h)⟩,
    by decide, by decide⟩

theorem fuzzy_match_symmetry_witness :
    fuzzy_match_name "Jordan Love" "J.Love" = true ∧
    fuzzy_match_name "J.Love" "Jordan Love" = true :=
  fuzzy_match_symmetry.1 "Jordan Love" "J.Love"
    (Or.inr (Or.inr (Or.inl (by unfold fuzzyRule3; decide))))

/-- The spec's worked lineup example: eight scored players in input
order. -/
def exQB1 : PlayerScore := ⟨"QB1", "KC", "QB", 5, 2023, 47⟩
def exQB2 : PlayerScore := ⟨"QB2", "BUF", "QB", 5, 2023, 15⟩
def exRB1 : PlayerScore := ⟨"RB1", "GB", "RB", 5, 2023, 23.5⟩
def exRB2 : PlayerScore := ⟨"RB2", "GB", "RB", 5, 2023, 12⟩
def exWR1 : PlayerScore := ⟨"WR1", "LV", "WR", 5, 2023, 45.5⟩
def exWR2 : PlayerScore := ⟨"WR2", "LV", "WR", 5, 2023, 32⟩
def exWR3 : PlayerScore := ⟨"WR3", "LV", "WR", 5, 2023, 10⟩
def exTE1 : PlayerScore := ⟨"TE1", "KC", "TE", 5, 2023, 18⟩

def exScored : List PlayerScore :=
  [exQB1, exQB2, exRB1, exRB2, exWR1, exWR2, exWR3, exTE1]

theorem sort_take_drop_dominates (l : List PlayerScore) (n : Nat) :
    ∀ q ∈ (List.insertionSort pointsGE l).take n,
    ∀ r ∈ (List.insertionSort pointsGE l).drop n,
      r.fantasy_points ≤ q.fantasy_points := by
  have hs : List.Pairwise pointsGE (List.insertionSort pointsGE l) :=
    List.sorted_insertionSort pointsGE l
  rw [← List.take_append_drop n (List.insertionSort pointsGE l)] at hs
  exact fun q hq r hr => (List.pairwise_append.mp hs).2.2 q hq r hr

theorem mem_lineup_iff (scored : List PlayerScore) (q : PlayerScore) :
    q ∈ select_optimal_lineup scored ↔
      ∃ sc ∈ defaultSlots,
        q ∈ (List.insertionSort pointsGE
          (scored.filter (fun p => p.player_position == sc.1))).take sc.2 := by
  unfold select_optimal_lineup
  rw [List.mem_flatten]
  constructor
  · rintro ⟨piece, hpiece, hq⟩
    rw [List.mem_map] at hpiece
    obtain ⟨sc, hsc, rfl⟩ := hpiece
    exact ⟨sc, hsc, hq⟩
  · rintro ⟨sc, hsc, hq⟩
    exact ⟨_, List.mem_map_of_mem _ hsc, hq⟩

theorem mem_group_of_mem_lineup {scored : List PlayerScore} {q : PlayerScore}
    {sc : String × Nat}
    (hq : q ∈ (List.insertionSort pointsGE
      (scored.filter (fun p => p.player_position == sc.1))).take sc.2) :
    q ∈ scored ∧ q.player_position = sc.1 := by
  have hmem : q ∈ scored.filter (fun p => p.player_position == sc.1) :=
    (List.perm_insertionSort pointsGE _).subset (List.take_subset _ _ hq)
  obtain ⟨hs, hb⟩ := List.mem_filter.mp hmem
  exact ⟨hs, beq_iff_eq.mp hb⟩

/-- Claim C1 (spec-modelled lineup optimizer): the spec's example input
selects exactly {QB1, RB1, WR1, WR2, TE1} with team total 166; every
selected player comes from the input and carries one of the slotted
positions (so positions absent from the slots are dropped); every
selected player scores at least as much as any unselected same-position
player (top-count by points descending); and ties keep the original
input order (the per-position sort is stable). -/
theorem lineup_optimizer_spec :
    select_optimal_lineup exScored = [exQB1, exRB1, exWR1, exWR2, exTE1] ∧
    team_total exScored = 166 ∧
    (∀ (scored : List PlayerScore) (q : PlayerScore),
        q ∈ select_optimal_lineup scored →
        q ∈ scored ∧ (q.player_position = "QB" ∨ q.player_position = "RB" ∨
          q.player_position = "WR" ∨ q.player_position = "TE")) ∧
    (∀ (scored : List PlayerScore) (q r : PlayerScore),
        q ∈ select_optimal_lineup scored → r ∈ scored →
        r.player_position = q.player_position →
        r ∉ select_optimal_lineup scored →
        r.fantasy_points ≤ q.fantasy_points) ∧
    (∀ (scored : List PlayerScore) (pos : String) (q r : PlayerScore),
        q.fantasy_points = r.fantasy_points →
        [q, r].Sublist (scored.filter (fun p => p.player_position == pos)) →
        [q, r].Sublist (List.insertionSort pointsGE
          (scored.filter (fun p => p.player_position == pos)))) := by
  have ha : select_optimal_lineup exScored = [exQB1, exRB1, exWR1, exWR2, exTE1] := by
    norm_num [select_optimal_lineup, defaultSlots, exScored, exQB1, exQB2, exRB1, exRB2,
      exWR1, exWR2, exWR3, exTE1, List.insertionSort, List.orderedInsert, pointsGE,
      List.take, List.flatten]
  refine ⟨ha, ?_, ?_, ?_, ?_⟩
  · rw [team_total, ha]
    norm_num [round2, round_eq, exQB1, exRB1, exWR1, exWR2, exTE1]
  · intro scored q hq
    obtain ⟨sc, hsc, hqt⟩ := (mem_lineup_iff scored q).mp hq
    obtain ⟨hqs, hqp⟩ := mem_group_of_mem_lineup hqt
    refine ⟨hqs, ?_⟩
    have : sc = ("QB", 1) ∨ sc = ("RB", 1) ∨ sc = ("WR", 2) ∨ sc = ("TE", 1) := by
      simpa [defaultSlots] using hsc
    rcases this with rfl | rfl | rfl | rfl
    · exact Or.inl hqp
    · exact Or.inr (Or.inl hqp)
    · exact Or.inr (Or.inr (Or.inl hqp))
    · exact Or.inr (Or.inr (Or.inr hqp))
  · intro scored q r hq hrs hrp hrn
    obtain ⟨sc, hsc, hqt⟩ := (mem_lineup_iff scored q).mp hq
    obtain ⟨hqs, hqp⟩ := mem_group_of_mem_lineup hqt
    have hrf : r ∈ scored.filter (fun p => p.player_position == sc.1) :=
      List.mem_filter.mpr ⟨hrs, beq_iff_eq.mpr (hrp.trans hqp)⟩
    have hrsort : r ∈ List.insertionSort pointsGE
        (scored.filter (fun p => p.player_position == sc.1)) :=
      ((List.perm_insertionSort pointsGE _).mem_iff).mpr hrf
    have hrtake : r ∉ (List.insertionSort pointsGE
        (scored.filter (fun p => p.player_position == sc.1))).take sc.2 := by
      intro hmem
      exact hrn ((mem_lineup_iff scored r).mpr ⟨sc, hsc, hmem⟩)
    have hsplit : r ∈ (List.insertionSort pointsGE
        (scored.filter (fun p => p.player_position == sc.1))).take sc.2 ++
        (List.insertionSort pointsGE
          (scored.filter (fun p => p.player_position == sc.1))).drop sc.2 := by
      rw [List.take_append_drop]
      exact hrsort
    have hrdrop : r ∈ (List.insertionSort pointsGE
        (scored.filter (fun p => p.player_position == sc.1))).drop sc.2 := by
      rcases List.mem_append.mp hsplit with h | h
      · exact absurd h hrtake
      · exact h
    exact sort_take_drop_dominates _ _ q hqt r hrdrop
  · intro scored pos q r heq hsub
    have hp : List.Pairwise pointsGE [q, r] := by
      refine List.pairwise_cons.mpr ⟨?_, List.pairwise_singleton _ _⟩
      intro x hx
      rw [List.mem_singleton] at hx
      subst hx
      exact le_of_eq heq.symm
    exact List.sublist_insertionSort hp hsub

theorem lineup_optimizer_spec_witness :
    exWR3 ∈ exScored ∧ exWR3 ∉ select_optimal_lineup exScored ∧
    exWR3.fantasy_points ≤ exWR2.fantasy_points :=
  ⟨by decide, by
    rw [lineup_optimizer_spec.1]
    decide,
   lineup_optimizer_spec.2.2.2.1 exScored exWR2 exWR3
     (by
       rw [lineup_optimizer_spec.1]
       decide)
     (by decide) (by decide)
     (by
       rw [lineup_optimizer_spec.1]
       decide)⟩

theorem char_eq_of_toNat_eq {c d : Char} (h : c.toNat = d.toNat) : c = d :=
  Char.eq_of_val_eq (UInt32.eq_of_toBitVec_eq (BitVec.eq_of_toNat_eq h))

theorem toNat_toLower_of_upper {c : Char} (h : c.toNat ≥ 65 ∧ c.toNat ≤ 90) :
    (Char.toLower c).toNat = c.toNat + 32 := by
  have hv : (c.toNat + 32).isValidChar := Or.inl (by omega)
  rw [Char.toLower]
  simp only [if_pos h]
  rw [Char.ofNat, dif_pos hv]
  rfl

theorem toLower_eq_self_of_not_upper {c : Char} (h : ¬(c.toNat ≥ 65 ∧ c.toNat ≤ 90)) :
    Char.toLower c = c := by
  simp only [Char.toLower]
  rw [if_neg h]

theorem toLower_toLower (c : Char) :
    Char.toLower (Char.toLower c) = Char.toLower c := by
  by_cases h : c.toNat ≥ 65 ∧ c.toNat ≤ 90
  · have h1 := toNat_toLower_of_upper h
    apply toLower_eq_self_of_not_upper
    rw [h1]
    omega
  · rw [toLower_eq_self_of_not_upper h, toLower_eq_self_of_not_upper h]

theorem toLower_eq_dot {c : Char} (h : Char.toLower c = '.') : c = '.' := by
  by_cases hu : c.toNat ≥ 65 ∧ c.toNat ≤ 90
  · exfalso
    have h1 := toNat_toLower_of_upper hu
    rw [h] at h1
    have hdot : ('.' : Char).toNat = 46 := by decide
    omega
  · rw [toLower_eq_self_of_not_upper hu] at h
    exact h

theorem dropWhile_idem {α : Type} (p : α → Bool) (l : List α) :
    (l.dropWhile p).dropWhile p = l.dropWhile p := by
  induction l with
  | nil => rfl
  | cons a t ih =>
    rw [List.dropWhile_cons]
    by_cases h : p a = true
    · rw [if_pos h]
      exact ih
    · rw [if_neg h, List.dropWhile_cons, if_neg h]

theorem dropWhile_eq_self_of_head {α : Type} {p : α → Bool} {l : List α}
    (h : ∀ x ∈ l.head?, p x = false) : l.dropWhile p = l := by
  cases l with
  | nil => rfl
  | cons a t =>
    have ha := h a rfl
    rw [List.dropWhile_cons, if_neg (by rw [ha]; simp)]

theorem head?_dropWhile_false {α : Type} (p : α → Bool) (l : List α) :
    ∀ x ∈ (l.dropWhile p).head?, p x = false := by
  induction l with
  | nil => intro x hx; cases hx
  | cons a t ih =>
    rw [List.dropWhile_cons]
    by_cases h : p a = true
    · rw [if_pos h]
      exact ih
    · rw [if_neg h]
      intro x hx
      have hxa : a = x := by simpa using hx
      subst hxa
      rw [Bool.not_eq_true] at h
      exact h

theorem dropWhile_suffix_ex {α : Type} (p : α → Bool) (l : List α) :
    ∃ t, t ++ l.dropWhile p = l := by
  induction l with
  | nil => exact ⟨[], rfl⟩
  | cons a as ih =>
    rw [List.dropWhile_cons]
    by_cases h : p a = true
    · rw [if_pos h]
      obtain ⟨t, ht⟩ := ih
      exact ⟨a :: t, by rw [List.cons_append, ht]⟩
    · rw [if_neg h]
      exact ⟨[], rfl⟩

theorem getLast?_dropWhile {α : Type} (p : α → Bool) (l : List α)
    (h : l.dropWhile p ≠ []) : (l.dropWhile p).getLast? = l.getLast? := by
  obtain ⟨t, ht⟩ := dropWhile_suffix_ex p l
  conv_rhs => rw [← ht]
  rw [List.getLast?_append_of_ne_nil _ h]

theorem pyStrip_idem (l : List Char) : pyStrip (pyStrip l) = pyStrip l := by
  unfold pyStrip
  set u := l.dropWhile isPySpace with hu
  set v := u.reverse.dropWhile isPySpace with hv
  have h1 : v.reverse.dropWhile isPySpace = v.reverse := by
    apply dropWhile_eq_self_of_head
    intro x hx
    rw [List.head?_reverse] at hx
    by_cases hvnil : v = []
    · rw [hvnil] at hx
      cases hx
    · rw [hv, getLast?_dropWhile _ _ (hv ▸ hvnil)] at hx
      rw [List.getLast?_reverse] at hx
      exact head?_dropWhile_false isPySpace l x (hu ▸ hx)
  rw [h1, List.reverse_reverse]
  have h2 : v.dropWhile isPySpace = v := by
    rw [hv]
    exact dropWhile_idem _ _
  rw [h2]

theorem mem_pyStrip {c : Char} {l : List Char} (h : c ∈ pyStrip l) : c ∈ l := by
  unfold pyStrip at h
  rw [List.mem_reverse] at h
  have h1 := (List.dropWhile_sublist isPySpace).subset h
  rw [List.mem_reverse] at h1
  exact (List.dropWhile_sublist isPySpace).subset h1

theorem periodAll_no_dot (l : List Char) : ∀ c ∈ periodAll l, c ≠ '.' := by
  intro c hc heq
  simp only [periodAll, List.mem_map] at hc
  obtain ⟨d, hd, hval⟩ := hc
  rw [heq] at hval
  by_cases h : (d == '.') = true
  · rw [if_pos h] at hval
    cases hval
  · rw [if_neg h] at hval
    exact h (beq_iff_eq.mpr hval)

theorem normalizeChars_no_dot (l : List Char) :
    ∀ c ∈ normalizeChars l, c ≠ '.' := by
  intro c hc heq
  have h1 := mem_pyStrip hc
  rw [List.mem_map] at h1
  obtain ⟨d, hd, hdc⟩ := h1
  rw [heq] at hdc
  exact periodAll_no_dot _ d hd (toLower_eq_dot hdc)

theorem normalizeChars_lower (l : List Char) :
    ∀ c ∈ normalizeChars l, Char.toLower c = c := by
  intro c hc
  have h1 := mem_pyStrip hc
  rw [List.mem_map] at h1
  obtain ⟨d, hd, hdc⟩ := h1
  rw [← hdc]
  exact toLower_toLower d

theorem periodCapital_eq_self :
    ∀ (l : List Char), (∀ c ∈ l, c ≠ '.') → periodCapital l = l := by
  intro l
  induction l with
  | nil => intro _; rfl
  | cons a t ih =>
    intro h
    have ha : a ≠ '.' := h a (List.mem_cons_self a t)
    have ht : periodCapital t = t := ih (fun c hc => h c (List.mem_cons_of_mem a hc))
    rw [periodCapital.eq_def]
    split
    · rename_i heq
      cases heq
    · rename_i c cs heq
      injection heq with h1 h2
      exact absurd h1 ha
    · rename_i c cs heq
      injection heq with h1 h2
      subst h1
      subst h2
      rw [ht]

theorem periodAll_eq_self {l : List Char} (h : ∀ c ∈ l, c ≠ '.') :
    periodAll l = l := by
  unfold periodAll
  have hcong : ∀ c ∈ l, (if c == '.' then ' ' else c) = c :=
    fun c hc => if_neg (fun hh => h c hc (beq_iff_eq.mp hh))
  rw [List.map_congr_left hcong]
  exact List.map_id _

theorem map_toLower_eq_self {l : List Char} (h : ∀ c ∈ l, Char.toLower c = c) :
    l.map Char.toLower = l := by
  rw [List.map_congr_left h]
  exact List.map_id _

/-- Claim C2 counterexample: `normalize_name` is not idempotent.
`normalize_name "Smith.II" = "smith ii"` — the suffix-removal step runs
before periods become spaces, so the "II" produced by the period
replacement survives — but a second application strips the now
whitespace-separated "ii" suffix, giving `"smith"`. -/
theorem normalize_name_not_idempotent :
    normalize_name (normalize_name "Smith.II") ≠ normalize_name "Smith.II" := by
  decide

/-- Claim C2 (amended): `normalize_name` is idempotent on every string
whose normalized form is left unchanged by the trailing-suffix removal
step — equivalently, whose normalized form does not end in a
whitespace-preceded generational suffix token.  (The counterexample
forces exactly this carve-out: on all other inputs a second application
changes nothing, since the output is already stripped, lowercase and
period-free.) -/
theorem normalizeChars_idem_of_suffix_free (l : List Char)
    (h : stripSuffixChars (normalizeChars l) = normalizeChars l) :
    normalizeChars (normalizeChars l) = normalizeChars l := by
  set y := normalizeChars l with hy
  have hstrip : pyStrip y = y := by
    rw [hy]
    unfold normalizeChars
    exact pyStrip_idem _
  have hnd : ∀ c ∈ y, c ≠ '.' := by
    rw [hy]
    exact normalizeChars_no_dot _
  have hlow : ∀ c ∈ y, Char.toLower c = c := by
    rw [hy]
    exact normalizeChars_lower _
  unfold normalizeChars
  rw [hstrip, h, periodCapital_eq_self y hnd, periodAll_eq_self hnd,
    map_toLower_eq_self hlow, hstrip]

theorem normalize_name_idem_of_suffix_free (s : String)
    (h : stripSuffixChars (normalizeChars s.data) = normalizeChars s.data) :
    normalize_name (normalize_name s) = normalize_name s := by
  unfold normalize_name
  exact congrArg String.mk (normalizeChars_idem_of_suffix_free s.data h)

theorem normalize_name_idem_witness :
    normalize_name (normalize_name "Patrick Mahomes Jr.") =
      normalize_name "Patrick Mahomes Jr." :=
  normalize_name_idem_of_suffix_free "Patrick Mahomes Jr." (by decide)
